import Mathlib

/-!
Shallow embedding of `src/swarms/models/base_multimodal_model.py`
(`class BaseMultiModalModel`): the batch-execution and retry helpers
and the chat-history queries.

Modelling conventions:
* The abstract collaborator `self.run(task, img)` is a parameter
  `run : String → String → Except ε ρ`; `Except.error e` stands for a
  raised exception `e`, `Except.ok r` for a normal return of `r`.
* `print` calls are observability side effects and are not modelled;
  a function that only prints is modelled by the sequence of values it
  would print (resp. the exception that aborts the iteration).
* A retry collaborator may behave differently on successive attempts,
  so it takes the zero-based attempt index as an extra argument.
* Python ints (`self.retries`) are embedded as `Int`; `range(n)` for
  `n ≤ 0` is empty, which is `Int.toNat` sending non-positives to `0`.
-/

namespace BaseMultiModalModel

universe u v

variable {ε : Type u} {ρ : Type v}

/-- Embeds `run_batch`: `futures = [executor.submit(self.run, task, img) for
task, img in tasks_images]` followed by `[future.result() for future in
futures]`. The comprehension collects results in submission order and the
first `future.result()` whose callable raised re-raises that exception, so
the whole collection is the fail-fast left-to-right sequencing below. -/
def run_batch (run : String → String → Except ε ρ) :
    List (String × String) → Except ε (List ρ)
  | [] => Except.ok []
  | p :: ps =>
    match run p.1 p.2 with
    | Except.error e => Except.error e
    | Except.ok r =>
      match run_batch run ps with
      | Except.error e => Except.error e
      | Except.ok rs => Except.ok (r :: rs)

/-- Embeds `run_many`: `results = executor.map(self.run, tasks, imgs)` then
`for result in results: print(result)`. `executor.map` over two iterables
pairs them up like `zip`, truncating to the shorter one, and iterating the
results re-raises the first exception in input order; the function itself
returns `None`, so the model is the sequence of results printed. -/
def run_many (run : String → String → Except ε ρ) (tasks imgs : List String) :
    Except ε (List ρ) :=
  run_batch run (tasks.zip imgs)

/-- Embeds the loop shared by `run_with_retries` and
`run_batch_with_retries`:
`for i in range(retries): try: return attempt() except Exception: continue`.
`i` is the number of attempts already made, `fuel` the iterations left;
the result pairs the returned value (`none` when the loop falls through,
returning Python's implicit `None`) with the total number of attempts. -/
def retryLoop (attempt : Nat → Except ε ρ) : Nat → Nat → Option ρ × Nat
  | i, 0 => (none, i)
  | i, fuel + 1 =>
    match attempt i with
    | Except.ok r => (some r, i + 1)
    | Except.error _ => retryLoop attempt (i + 1) fuel

/-- Embeds `run_with_retries` for a fixed `(task, img)`: `runA i` is what
`self.run(task, img)` does on the i-th attempt. -/
def run_with_retries (retries : Int) (runA : Nat → Except ε ρ) :
    Option ρ × Nat :=
  retryLoop runA 0 retries.toNat

/-- Embeds `run_batch_with_retries`: each iteration calls
`self.run_batch(tasks_images)` on the whole input list; `runA i` is the
behaviour of `self.run` during the i-th whole-batch attempt. -/
def run_batch_with_retries (retries : Int)
    (runA : Nat → String → String → Except ε ρ)
    (tasks_images : List (String × String)) : Option (List ρ) × Nat :=
  retryLoop (fun i => run_batch (runA i) tasks_images) 0 retries.toNat

/-- Embeds `unique_chat_history`: `list(set(self.chat_history))`, the
distinct elements each once, in an order the source does not specify
(Python set iteration order); modelled by `List.dedup`. -/
def unique_chat_history (chat_history : List String) : List String :=
  chat_history.dedup

/-- Embeds `get_unique_chat_history`: also `list(set(self.chat_history))`. -/
def get_unique_chat_history (chat_history : List String) : List String :=
  chat_history.dedup

/-- Embeds `get_chat_history_length`: `len(self.chat_history)`. -/
def get_chat_history_length (chat_history : List String) : Nat :=
  chat_history.length

/-- Embeds `get_unique_chat_history_length`:
`len(list(set(self.chat_history)))`. -/
def get_unique_chat_history_length (chat_history : List String) : Nat :=
  chat_history.dedup.length

/-- Worker count of a `ThreadPoolExecutor` constructed with
`max_workers=None`: `min(32, os.cpu_count() + 4)`. -/
def defaultPoolCapacity (cpuCount : Nat) : Nat :=
  min 32 (cpuCount + 4)

/-- Capacity of the pool `run_many` constructs:
`ThreadPoolExecutor(max_workers=self.max_workers)`. -/
def run_many_pool_capacity (max_workers : Nat) : Nat :=
  max_workers

/-- Capacity of the pool `run_batch` constructs:
`concurrent.futures.ThreadPoolExecutor()` — no `max_workers` argument, so
the default sizing applies and `self.max_workers` plays no role. -/
def run_batch_pool_capacity (cpuCount : Nat) : Nat :=
  defaultPoolCapacity cpuCount

/-- Capacity of the pool `run_batch_async` uses:
`loop.run_in_executor(None, ...)` runs on the event loop's default
executor, a `ThreadPoolExecutor` with default sizing. -/
def run_batch_async_pool_capacity (cpuCount : Nat) : Nat :=
  defaultPoolCapacity cpuCount

/-- Abstract concurrency semantics of a bounded worker pool: a schedule
records, instant by instant, how many submitted invocations are running
simultaneously; the pool admits the schedule iff that number never exceeds
the pool capacity or the number of pending invocations. -/
def ValidSchedule (capacity pending : Nat) (sched : List Nat) : Prop :=
  ∀ k ∈ sched, k ≤ capacity ∧ k ≤ pending

instance (capacity pending : Nat) (sched : List Nat) :
    Decidable (ValidSchedule capacity pending sched) :=
  List.decidableBAll _ sched

/-! Helper lemmas. -/

lemma run_batch_ok_length (run : String → String → Except ε ρ)
    (pairs : List (String × String))
    (h : ∀ p ∈ pairs, (run p.1 p.2).isOk) :
    ∃ rs, run_batch run pairs = Except.ok rs ∧ rs.length = pairs.length := by
  induction pairs with
  | nil => exact ⟨[], rfl, rfl⟩
  | cons p ps ih =>
    have hp := h p (List.mem_cons_self p ps)
    obtain ⟨r, hr⟩ : ∃ r, run p.1 p.2 = Except.ok r := by
      cases hrun : run p.1 p.2 with
      | error e => rw [hrun] at hp; simp [Except.isOk, Except.toBool] at hp
      | ok r => exact ⟨r, rfl⟩
    obtain ⟨rs, hrs, hlen⟩ := ih (fun q hq => h q (List.mem_cons_of_mem p hq))
    exact ⟨r :: rs, by simp [run_batch, hr, hrs], by simp [hlen]⟩

lemma run_batch_map (run : String → String → Except ε ρ)
    (f : String → String → ρ) (pairs : List (String × String))
    (h : ∀ p ∈ pairs, run p.1 p.2 = Except.ok (f p.1 p.2)) :
    run_batch run pairs = Except.ok (pairs.map fun p => f p.1 p.2) := by
  induction pairs with
  | nil => rfl
  | cons p ps ih =>
    have hp := h p (List.mem_cons_self p ps)
    have hps := ih (fun q hq => h q (List.mem_cons_of_mem p hq))
    simp [run_batch, hp, hps]

lemma retryLoop_count_le (attempt : Nat → Except ε ρ) :
    ∀ (fuel i : Nat), (retryLoop attempt i fuel).2 ≤ i + fuel := by
  intro fuel
  induction fuel with
  | zero => intro i; simp [retryLoop]
  | succ n ih =>
    intro i
    cases hA : attempt i with
    | ok r => simp only [retryLoop, hA]; omega
    | error e =>
      have := ih (i + 1)
      simp only [retryLoop, hA]
      omega

lemma retryLoop_all_fail (attempt : Nat → Except ε ρ) :
    ∀ (fuel i : Nat), (∀ j, j < fuel → ∃ e, attempt (i + j) = Except.error e) →
    retryLoop attempt i fuel = (none, i + fuel) := by
  intro fuel
  induction fuel with
  | zero => intro i _; simp [retryLoop]
  | succ n ih =>
    intro i h
    obtain ⟨e, he⟩ := h 0 (Nat.succ_pos n)
    rw [Nat.add_zero] at he
    have hrest : ∀ j, j < n → ∃ e, attempt (i + 1 + j) = Except.error e := by
      intro j hj
      have := h (j + 1) (by omega)
      simpa [Nat.add_assoc, Nat.add_comm 1 j] using this
    simp only [retryLoop, he]
    rw [ih (i + 1) hrest]
    congr 1
    omega

lemma retryLoop_first_success (attempt : Nat → Except ε ρ) (r : ρ) :
    ∀ (k i fuel : Nat), (∀ j, j < k → ∃ e, attempt (i + j) = Except.error e) →
    attempt (i + k) = Except.ok r → k < fuel →
    retryLoop attempt i fuel = (some r, i + k + 1) := by
  intro k
  induction k with
  | zero =>
    intro i fuel _ hsucc hfuel
    rw [Nat.add_zero] at hsucc
    obtain ⟨m, rfl⟩ := Nat.exists_eq_succ_of_ne_zero (Nat.pos_iff_ne_zero.mp hfuel)
    simp [retryLoop, hsucc]
  | succ n ih =>
    intro i fuel hfail hsucc hfuel
    obtain ⟨m, rfl⟩ := Nat.exists_eq_succ_of_ne_zero
      (Nat.pos_iff_ne_zero.mp (Nat.lt_of_le_of_lt (Nat.zero_le _) hfuel))
    obtain ⟨e, he⟩ := hfail 0 (Nat.succ_pos n)
    rw [Nat.add_zero] at he
    have hfail' : ∀ j, j < n → ∃ e, attempt (i + 1 + j) = Except.error e := by
      intro j hj
      have := hfail (j + 1) (by omega)
      simpa [Nat.add_assoc, Nat.add_comm 1 j] using this
    have hsucc' : attempt (i + 1 + n) = Except.ok r := by
      have h1 : i + 1 + n = i + (n + 1) := by omega
      rw [h1]; exact hsucc
    have := ih (i + 1) m hfail' hsucc' (by omega)
    simp only [retryLoop, he]
    rw [this]
    congr 1
    omega

lemma except_isOk_exists {x : Except ε ρ} (h : x.isOk) : ∃ r, x = Except.ok r := by
  cases x with
  | error e => simp [Except.isOk, Except.toBool] at h
  | ok r => exact ⟨r, rfl⟩

lemma run_batch_ok_pointwise (run : String → String → Except ε ρ)
    (pairs : List (String × String))
    (h : ∀ p ∈ pairs, (run p.1 p.2).isOk) :
    ∃ rs, run_batch run pairs = Except.ok rs ∧ rs.length = pairs.length ∧
      ∀ (i : Nat) (hi : i < pairs.length) (hl : i < rs.length),
        run (pairs.get ⟨i, hi⟩).1 (pairs.get ⟨i, hi⟩).2
          = Except.ok (rs.get ⟨i, hl⟩) := by
  induction pairs with
  | nil => exact ⟨[], rfl, rfl, fun i hi => absurd hi (by simp)⟩
  | cons p ps ih =>
    obtain ⟨r, hr⟩ := except_isOk_exists (h p (List.mem_cons_self p ps))
    obtain ⟨rs, hrs, hlen, hpt⟩ :=
      ih (fun q hq => h q (List.mem_cons_of_mem p hq))
    refine ⟨r :: rs, by simp [run_batch, hr, hrs], by simp [hlen], ?_⟩
    intro i hi hl
    cases i with
    | zero => simpa using hr
    | succ n =>
      have hn : n < ps.length := by simpa using hi
      have hln : n < rs.length := by simpa using hl
      simpa using hpt n hn hln

/-! Claim theorems. -/

/-- C1: for every list of (task, image) pairs (including the empty list) on
which no invocation of `run` raises, `run_batch` returns a list of exactly
as many results as input pairs, index-aligned with the input (the i-th
result is what `run` returned on the i-th input pair), and `run_batch` on
the empty list returns the empty list without raising. -/
theorem run_batch_length_aligned (run : String → String → Except ε ρ)
    (pairs : List (String × String))
    (h : ∀ p ∈ pairs, (run p.1 p.2).isOk) :
    (∃ rs, run_batch run pairs = Except.ok rs ∧ rs.length = pairs.length ∧
      ∀ (i : Nat) (hi : i < pairs.length) (hl : i < rs.length),
        run (pairs.get ⟨i, hi⟩).1 (pairs.get ⟨i, hi⟩).2
          = Except.ok (rs.get ⟨i, hl⟩)) ∧
    run_batch run [] = Except.ok ([] : List ρ) :=
  ⟨run_batch_ok_pointwise run pairs h, rfl⟩

theorem run_batch_length_aligned_witness :
    (∀ p ∈ ([("a", "b"), ("c", "d")] : List (String × String)),
      (((fun _ _ => Except.ok 0) : String → String → Except Unit Nat) p.1 p.2).isOk) ∧
    ((∃ rs, run_batch ((fun _ _ => Except.ok 0) : String → String → Except Unit Nat)
        [("a", "b"), ("c", "d")] = Except.ok rs ∧
        rs.length = ([("a", "b"), ("c", "d")] : List (String × String)).length ∧
        ∀ (i : Nat) (hi : i < ([("a", "b"), ("c", "d")] :
            List (String × String)).length) (hl : i < rs.length),
          ((fun _ _ => Except.ok 0) : String → String → Except Unit Nat)
            (([("a", "b"), ("c", "d")] : List (String × String)).get ⟨i, hi⟩).1
            (([("a", "b"), ("c", "d")] : List (String × String)).get ⟨i, hi⟩).2
            = Except.ok (rs.get ⟨i, hl⟩)) ∧
      run_batch ((fun _ _ => Except.ok 0) : String → String → Except Unit Nat) []
        = Except.ok ([] : List Nat)) :=
  ⟨by decide, run_batch_length_aligned _ _ (by decide)⟩

/-- C2: when `run` is the pure function `fun t img => Except.ok (f t img)`
(deterministic, never raising), the i-th result of `run_batch` is exactly
`f` applied to the i-th input pair. -/
theorem run_batch_index (f : String → String → ρ)
    (pairs : List (String × String)) (i : Nat) (hi : i < pairs.length) :
    ∃ rs, run_batch (fun t img => (Except.ok (f t img) : Except ε ρ)) pairs
        = Except.ok rs ∧
      ∃ hl : i < rs.length,
        rs.get ⟨i, hl⟩ = f (pairs.get ⟨i, hi⟩).1 (pairs.get ⟨i, hi⟩).2 := by
  refine ⟨pairs.map (fun p => f p.1 p.2),
    run_batch_map _ f pairs (fun p _ => rfl), by simpa using hi, ?_⟩
  simp

theorem run_batch_index_witness :
    0 < ([("a", "b")] : List (String × String)).length ∧
    ∃ rs, run_batch (fun t img =>
        (Except.ok ((fun _ _ => (5 : Nat)) t img) : Except Unit Nat)) [("a", "b")]
        = Except.ok rs ∧
      ∃ hl : 0 < rs.length,
        rs.get ⟨0, hl⟩ = (fun _ _ => (5 : Nat))
          (([("a", "b")] : List (String × String)).get ⟨0, by decide⟩).1
          (([("a", "b")] : List (String × String)).get ⟨0, by decide⟩).2 :=
  ⟨by decide, run_batch_index (fun _ _ => (5 : Nat)) [("a", "b")] 0 (by decide)⟩

/-- C3: `run_with_retries` calls `run` at most `retries` times in total, and
when `run` fails on the first k attempts and succeeds on attempt k (with
k within the budget), it makes exactly k + 1 calls and returns the
successful result; the loop carries no delay between attempts. -/
theorem run_with_retries_attempt_count (retries : Int)
    (runA : Nat → Except ε ρ) (k : Nat) (r : ρ) (hk : k < retries.toNat)
    (hfail : ∀ j, j < k → ∃ e, runA j = Except.error e)
    (hsucc : runA k = Except.ok r) :
    (∀ g : Nat → Except ε ρ, (run_with_retries retries g).2 ≤ retries.toNat) ∧
    run_with_retries retries runA = (some r, k + 1) := by
  constructor
  · intro g
    have := retryLoop_count_le g retries.toNat 0
    simpa [run_with_retries] using this
  · have := retryLoop_first_success runA r k 0 retries.toNat
      (by intro j hj; simpa using hfail j hj) (by simpa using hsucc) hk
    simpa [run_with_retries] using this

theorem run_with_retries_attempt_count_witness :
    (1 < (3 : Int).toNat ∧
      (∀ j, j < 1 → ∃ e,
        (fun n => if n = 0 then Except.error () else Except.ok (7 : Nat)) j
          = Except.error e) ∧
      (fun n => if n = 0 then Except.error () else Except.ok (7 : Nat)) 1
        = Except.ok 7) ∧
    ((∀ g : Nat → Except Unit Nat,
        (run_with_retries 3 g).2 ≤ (3 : Int).toNat) ∧
      run_with_retries 3
        (fun n => if n = 0 then Except.error () else Except.ok (7 : Nat))
        = (some 7, 1 + 1)) :=
  ⟨⟨by decide, fun j hj => ⟨(), by interval_cases j; rfl⟩, rfl⟩,
    run_with_retries_attempt_count 3 _ 1 7 (by decide)
      (fun j hj => ⟨(), by interval_cases j; rfl⟩) rfl⟩

/-- C4: when `run` raises on every one of the `retries` attempts,
`run_with_retries` suppresses every exception (the loop result is total,
no error escapes) and falls through with no successful result: it returns
`none` after exactly `retries` attempts. -/
theorem run_with_retries_exhausted (retries : Int) (runA : Nat → Except ε ρ)
    (h : ∀ j, j < retries.toNat → ∃ e, runA j = Except.error e) :
    run_with_retries retries runA = (none, retries.toNat) := by
  have := retryLoop_all_fail runA retries.toNat 0
    (by intro j hj; simpa using h j hj)
  simpa [run_with_retries] using this

theorem run_with_retries_exhausted_witness :
    (∀ j, j < (2 : Int).toNat → ∃ e,
      (fun _ => (Except.error () : Except Unit Nat)) j = Except.error e) ∧
    run_with_retries 2 (fun _ => (Except.error () : Except Unit Nat))
      = (none, (2 : Int).toNat) :=
  ⟨fun _ _ => ⟨(), rfl⟩, run_with_retries_exhausted 2 _ (fun _ _ => ⟨(), rfl⟩)⟩

/-- C5 counterexample: `run_many` performs no length validation at all —
called with one task and zero images it silently yields the empty result
sequence instead of producing any error, although the lengths differ. -/
theorem run_many_no_shape_mismatch_error :
    run_many ((fun _ _ => Except.ok 0) : String → String → Except Unit Nat)
      ["task"] [] = Except.ok [] ∧
    (["task"] : List String).length ≠ ([] : List String).length :=
  ⟨rfl, by decide⟩

/-- C5 amended: `run_many` does not validate that tasks and images have the
same length; `executor.map` pairs them up like `zip`, truncating to the
shorter list, so (when `run` never raises) it silently processes exactly
`min (len tasks) (len imgs)` pairs and produces no error. -/
theorem run_many_truncates (run : String → String → Except ε ρ)
    (tasks imgs : List String) (h : ∀ t i, (run t i).isOk) :
    ∃ rs, run_many run tasks imgs = Except.ok rs ∧
      rs.length = min tasks.length imgs.length := by
  obtain ⟨rs, hrs, hlen⟩ :=
    run_batch_ok_length run (tasks.zip imgs) (fun p _ => h p.1 p.2)
  exact ⟨rs, hrs, by simpa [List.length_zip] using hlen⟩

theorem run_many_truncates_witness :
    (∀ t i, (((fun _ _ => Except.ok 0) : String → String → Except Unit Nat)
      t i).isOk) ∧
    ∃ rs, run_many ((fun _ _ => Except.ok 0) : String → String → Except Unit Nat)
        ["a", "b"] ["c"] = Except.ok rs ∧
      rs.length = min (["a", "b"] : List String).length
        (["c"] : List String).length :=
  ⟨fun _ _ => rfl, run_many_truncates _ ["a", "b"] ["c"] (fun _ _ => rfl)⟩

/-- C6: `run_batch` is fail-fast with no exception handling: when every pair
before position `pre.length` succeeds and the pair there raises `e`, the
whole call propagates exactly that exception — the one of the smallest
failing index — and returns no partial result list. -/
theorem run_batch_failfast (run : String → String → Except ε ρ)
    (pre post : List (String × String)) (p : String × String) (e : ε)
    (hpre : ∀ q ∈ pre, (run q.1 q.2).isOk)
    (hfailp : run p.1 p.2 = Except.error e) :
    run_batch run (pre ++ p :: post) = Except.error e := by
  induction pre with
  | nil => simp [run_batch, hfailp]
  | cons q qs ih =>
    obtain ⟨r, hr⟩ := except_isOk_exists (hpre q (List.mem_cons_self q qs))
    have hrest := ih (fun q' hq' => hpre q' (List.mem_cons_of_mem q hq'))
    simp [run_batch, hr, hrest]

theorem run_batch_failfast_witness :
    (∀ q ∈ ([("a", "x")] : List (String × String)),
      (((fun t _ => if t = "bad" then Except.error 3 else Except.ok 0) :
        String → String → Except Nat Nat) q.1 q.2).isOk) ∧
    ((fun t _ => if t = "bad" then Except.error 3 else Except.ok 0) :
      String → String → Except Nat Nat) "bad" "y" = Except.error 3 ∧
    run_batch ((fun t _ => if t = "bad" then Except.error 3 else Except.ok 0) :
        String → String → Except Nat Nat)
      ([("a", "x")] ++ ("bad", "y") :: [("c", "z")]) = Except.error 3 :=
  ⟨by decide, rfl,
    run_batch_failfast _ [("a", "x")] [("c", "z")] ("bad", "y") 3
      (by decide) rfl⟩

/-- C7: `run_batch_with_retries` makes at most `retries` whole-batch
attempts, and each attempt resubmits the entire pairs list; with a budget
of 3, a batch that fails on the first two whole-batch attempts and a `run`
that succeeds on every pair of the third attempt, it returns the full
result list for all pairs after exactly 3 whole-batch attempts. -/
theorem run_batch_with_retries_whole_batch
    (runA : Nat → String → String → Except ε ρ)
    (pairs : List (String × String)) (f : String → String → ρ) (e0 e1 : ε)
    (h0 : run_batch (runA 0) pairs = Except.error e0)
    (h1 : run_batch (runA 1) pairs = Except.error e1)
    (h2 : ∀ p ∈ pairs, runA 2 p.1 p.2 = Except.ok (f p.1 p.2)) :
    (∀ (r : Int) (g : Nat → String → String → Except ε ρ)
        (qs : List (String × String)),
      (run_batch_with_retries r g qs).2 ≤ r.toNat) ∧
    run_batch_with_retries 3 runA pairs
      = (some (pairs.map fun p => f p.1 p.2), 3) := by
  constructor
  · intro r g qs
    have := retryLoop_count_le (fun i => run_batch (g i) qs) r.toNat 0
    simpa [run_batch_with_retries] using this
  · have hsucc : run_batch (runA 2) pairs
        = Except.ok (pairs.map fun p => f p.1 p.2) := run_batch_map _ f pairs h2
    have hfail : ∀ j, j < 2 → ∃ e,
        (fun i => run_batch (runA i) pairs) (0 + j) = Except.error e := by
      intro j hj
      interval_cases j
      · exact ⟨e0, by simpa using h0⟩
      · exact ⟨e1, by simpa using h1⟩
    have := retryLoop_first_success (fun i => run_batch (runA i) pairs)
      (pairs.map fun p => f p.1 p.2) 2 0 ((3 : Int).toNat) hfail
      (by simpa using hsucc) (by decide)
    simpa [run_batch_with_retries] using this

theorem run_batch_with_retries_whole_batch_witness :
    (run_batch ((fun i _ _ => if i < 2 then Except.error 9 else Except.ok 1 :
        Nat → String → String → Except Nat Nat) 0) [("a", "b")]
        = Except.error 9 ∧
      run_batch ((fun i _ _ => if i < 2 then Except.error 9 else Except.ok 1 :
        Nat → String → String → Except Nat Nat) 1) [("a", "b")]
        = Except.error 9 ∧
      (∀ p ∈ ([("a", "b")] : List (String × String)),
        ((fun i _ _ => if i < 2 then Except.error 9 else Except.ok 1 :
          Nat → String → String → Except Nat Nat) 2) p.1 p.2
          = Except.ok ((fun _ _ => (1 : Nat)) p.1 p.2))) ∧
    ((∀ (r : Int) (g : Nat → String → String → Except Nat Nat)
        (qs : List (String × String)),
      (run_batch_with_retries r g qs).2 ≤ r.toNat) ∧
    run_batch_with_retries 3
      (fun i _ _ => if i < 2 then Except.error 9 else Except.ok 1)
      [("a", "b")]
      = (some (([("a", "b")] : List (String × String)).map
          fun _ => (1 : Nat)), 3)) :=
  ⟨⟨rfl, rfl, by rintro p hp; simp only [List.mem_singleton] at hp; subst hp; rfl⟩,
    run_batch_with_retries_whole_batch _ [("a", "b")] (fun _ _ => 1) 9 9
      rfl rfl
      (by rintro p hp; simp only [List.mem_singleton] at hp; subst hp; rfl)⟩

/-- C8 counterexample: `run_batch` constructs its pool without passing
`self.max_workers`, so the default capacity `min 32 (cpu_count + 4)`
applies; already with cpu_count = 1 that capacity admits a schedule in
which all 5 pending invocations run simultaneously, exceeding the claimed
bound max_workers = 2. -/
theorem run_batch_pool_ignores_max_workers :
    ValidSchedule (run_batch_pool_capacity 1) 5 [5] ∧ ¬ (5 ≤ 2) := by
  decide

/-- C8 amended: only `run_many` sizes its pool by `max_workers`, so only
there is concurrency bounded by it; `run_batch` (and `run_batch_async`,
which uses the same default sizing) run on a default-capacity pool of
`min 32 (cpu_count + 4)` workers, which for any cpu_count ≥ 1 admits all
5 pending invocations running at once. -/
theorem max_workers_bounds_run_many_only (mw pending cpu : Nat)
    (sched : List Nat)
    (h : ValidSchedule (run_many_pool_capacity mw) pending sched)
    (hcpu : 1 ≤ cpu) :
    (∀ k ∈ sched, k ≤ mw) ∧
    ValidSchedule (run_batch_pool_capacity cpu) 5 [5] ∧
    run_batch_async_pool_capacity cpu = run_batch_pool_capacity cpu := by
  refine ⟨fun k hk => (h k hk).1, ?_, rfl⟩
  intro k hk
  simp only [List.mem_singleton] at hk
  subst hk
  refine ⟨?_, le_refl 5⟩
  simp only [run_batch_pool_capacity, defaultPoolCapacity]
  omega

theorem max_workers_bounds_run_many_only_witness :
    (ValidSchedule (run_many_pool_capacity 2) 5 [2, 1, 2] ∧ 1 ≤ 1) ∧
    ((∀ k ∈ ([2, 1, 2] : List Nat), k ≤ 2) ∧
      ValidSchedule (run_batch_pool_capacity 1) 5 [5] ∧
      run_batch_async_pool_capacity 1 = run_batch_pool_capacity 1) :=
  ⟨⟨by decide, by decide⟩,
    max_workers_bounds_run_many_only 2 5 1 [2, 1, 2] (by decide) (by decide)⟩

/-- C9: `unique_chat_history` and `get_unique_chat_history` return the
distinct elements of the chat history, each exactly once (order is
unspecified in the source, set semantics), and
`get_unique_chat_history_length` is the number of distinct elements,
hence at most `get_chat_history_length`. -/
theorem unique_chat_history_distinct (chat_history : List String) :
    (unique_chat_history chat_history).Nodup ∧
    (∀ x, x ∈ unique_chat_history chat_history ↔ x ∈ chat_history) ∧
    get_unique_chat_history chat_history = unique_chat_history chat_history ∧
    get_unique_chat_history_length chat_history = chat_history.toFinset.card ∧
    get_unique_chat_history_length chat_history
      ≤ get_chat_history_length chat_history :=
  ⟨List.nodup_dedup _, fun _ => List.mem_dedup, rfl,
    (List.card_toFinset _).symm,
    List.Sublist.length_le (List.dedup_sublist _)⟩

/-- C10: with a zero or negative retry budget, `range(self.retries)` is
empty, so the retry loops make zero attempts: `run_with_retries` and
`run_batch_with_retries` both return `none` with a call count of 0. -/
theorem retries_nonpositive_no_calls (retries : Int) (h : retries ≤ 0)
    (runA : Nat → Except ε ρ)
    (runB : Nat → String → String → Except ε ρ)
    (pairs : List (String × String)) :
    run_with_retries retries runA = (none, 0) ∧
    run_batch_with_retries retries runB pairs = (none, 0) := by
  have ht : retries.toNat = 0 := Int.toNat_of_nonpos h
  exact ⟨by simp [run_with_retries, ht, retryLoop],
    by simp [run_batch_with_retries, ht, retryLoop]⟩

theorem retries_nonpositive_no_calls_witness :
    ((-1 : Int) ≤ 0) ∧
    (run_with_retries (-1) (fun _ => (Except.error () : Except Unit Nat))
        = (none, 0) ∧
      run_batch_with_retries (-1)
        (fun _ _ _ => (Except.error () : Except Unit Nat)) [("a", "b")]
        = (none, 0)) :=
  ⟨by decide, retries_nonpositive_no_calls (-1) (by decide) _ _ _⟩

end BaseMultiModalModel
